import Mathlib

/-!
# POKER-ON-MONAD: verification of the fairness protocol and game engine

Shallow embedding of the repository's two cores:

* the Solidity contracts `PokerEntropyDealer` / `PokerEntropyDealerV2`
  (deterministic Fisher-Yates `_shuffle`, `commitSalt`, `revealAndVerify`);
* the TypeScript `PokerEngine` (`poker/src/utils/crypto.ts`) together with the
  shared types of `types.ts` (`Card`, `Player`, `GameState`, `HandEvaluation`).

`keccak256` is an EVM builtin external to the repository, so every place the
source hashes is parametrised by an abstract hash function; theorems about the
contracts therefore hold for every choice of hash, in particular for keccak256.
Solidity `require` reverts the whole transaction, so contract entry points are
embedded as `Except`-valued functions: an `error` result models a revert that
leaves storage untouched, and `ok` carries the updated storage.
-/

namespace Dealer

/-- One in-place array swap `deck[i] ↔ deck[j]`, on a deck modelled as a map
from index to stored byte (exactly the array semantics of the source). -/
def fySwap (d : Nat → Nat) (i j : Nat) : Nat → Nat :=
  fun k => if k = i then d j else if k = j then d i else d k

/-- The Fisher-Yates loop of `_shuffle` (part_000 lines 182-188, identical in
part_001 lines 85-93): for `i` from 51 down to 1, `s := keccak(s, i)`,
`j := s % (i+1)`, swap `deck[i]` and `deck[j]`.  The running accumulator `s`
and the loop counter are the two hash inputs; `h` abstracts
`uint256(keccak256(abi.encodePacked(s, i)))`. -/
def fyLoop (h : Nat → Nat → Nat) : Nat → (Nat → Nat) → Nat → (Nat → Nat)
  | _, d, 0 => d
  | s, d, i + 1 =>
    let s1 := h s (i + 1)
    let j := s1 % (i + 1 + 1)
    fyLoop h s1 (fySwap d (i + 1) j) i

/-- `_shuffle(seed)`: initialise `deck[i] = i`, run the Fisher-Yates loop from
index 51 down to 1, then pack the 52 deck bytes in order. -/
def shuffleDeckBytes (h : Nat → Nat → Nat) (seed : Nat) : List Nat :=
  List.ofFn (fun k : Fin 52 => fyLoop h seed (fun i => i) 51 k.val)

/-- Invariant carried through the Fisher-Yates loop: the deck function is a
permutation of `Nat` that fixes every index `≥ 52`. -/
def DeckPermBelow52 (d : Nat → Nat) : Prop :=
  ∃ σ : Equiv.Perm ℕ, (∀ k, d k = σ k) ∧ ∀ m, 52 ≤ m → σ m = m

/-- `GameSession` storage struct of `PokerEntropyDealerV2` (part_000 lines
18-27).  `bytes32` values and the host address are modelled as `Nat`; the
Solidity zero value of an absent mapping entry is the all-zero session. -/
structure GameSession where
  saltHash : Nat
  pythSeed : Nat
  revealedSalt : Nat
  host : Nat
  sequenceNumber : Nat
  vrfFulfilled : Bool
  gameEnded : Bool
  verified : Bool
deriving DecidableEq, Repr

/-- The zero-initialised session a Solidity mapping returns for an unknown id. -/
def emptySession : GameSession :=
  { saltHash := 0, pythSeed := 0, revealedSalt := 0, host := 0,
    sequenceNumber := 0, vrfFulfilled := false, gameEnded := false, verified := false }

/-- The `games` mapping `bytes32 => GameSession`. -/
def GamesMap : Type := Nat → GameSession

/-- Point update of the `games` mapping. -/
def GamesMap.store (games : GamesMap) (gameId : Nat) (g : GameSession) : GamesMap :=
  fun k => if k = gameId then g else games k

/-- `commitSalt(gameId, saltHash)` (part_000 lines 49-65).  Each failed
`require` is a revert, embedded as an `error` result. -/
def commitSalt (games : GamesMap) (sender gameId saltHash : Nat) :
    Except String GamesMap :=
  if (games gameId).saltHash ≠ 0 then .error "already committed"
  else if saltHash = 0 then .error "invalid saltHash"
  else .ok (games.store gameId
    { saltHash := saltHash, pythSeed := 0, revealedSalt := 0, host := sender,
      sequenceNumber := 0, vrfFulfilled := false, gameEnded := false, verified := false })

/-- The card-check loop of `revealAndVerify` (part_000 lines 137-145): for each
claimed pair, `require(pos < 52)` (revert on failure), then compare
`deck[pos]` with the claimed card; the first mismatch sets `valid = false`
and breaks out of the loop. -/
def checkDealtCards (deck : List Nat) : List Nat → List Nat → Except String Bool
  | _, [] => .ok true
  | [], _ => .ok true
  | c :: cs, p :: ps =>
    if 52 ≤ p then .error "invalid position"
    else if deck.getD p 0 ≠ c then .ok false
    else checkDealtCards deck cs ps

/-- `revealAndVerify(gameId, salt, dealtCards, cardPositions)` (part_000 lines
115-149).  `hashSalt` abstracts `keccak256(abi.encodePacked(salt))`,
`hashPair` abstracts `keccak256(abi.encodePacked(pythSeed, salt))` and
`hashFY` is the hash used inside `_shuffle`.  A revert (failed `require`)
is an `error` and leaves storage untouched; on success the updated mapping
and the validity flag are returned. -/
def revealAndVerify (hashSalt : Nat → Nat) (hashPair hashFY : Nat → Nat → Nat)
    (games : GamesMap) (gameId salt : Nat) (dealtCards cardPositions : List Nat) :
    Except String (GamesMap × Bool) :=
  let game := games gameId
  if !game.vrfFulfilled then .error "VRF not fulfilled"
  else if game.gameEnded then .error "already ended"
  else if dealtCards.length ≠ cardPositions.length then .error "length mismatch"
  else if hashSalt salt ≠ game.saltHash then .error "salt mismatch"
  else
    let finalSeed := hashPair game.pythSeed salt
    let deck := shuffleDeckBytes hashFY finalSeed
    match checkDealtCards deck dealtCards cardPositions with
    | .error e => .error e
    | .ok valid =>
      .ok (games.store gameId
        { game with revealedSalt := salt, gameEnded := true, verified := valid }, valid)

/-- EVM transaction semantics of `commitSalt`: a revert keeps the old storage. -/
def runCommitSalt (games : GamesMap) (sender gameId saltHash : Nat) : GamesMap :=
  match commitSalt games sender gameId saltHash with
  | .ok g => g
  | .error _ => games

/-- EVM transaction semantics of `revealAndVerify`: a revert keeps the old
storage. -/
def runRevealAndVerify (hashSalt : Nat → Nat) (hashPair hashFY : Nat → Nat → Nat)
    (games : GamesMap) (gameId salt : Nat) (dealtCards cardPositions : List Nat) :
    GamesMap :=
  match revealAndVerify hashSalt hashPair hashFY games gameId salt dealtCards cardPositions with
  | .ok g => g.1
  | .error _ => games

/-- Validity flag of a successful `revealAndVerify`, `none` on revert. -/
def revealValidity (r : Except String (GamesMap × Bool)) : Option Bool :=
  match r with
  | .ok g => some g.2
  | .error _ => none

end Dealer

namespace Poker

/-- `Suit` enum of `types.ts` in declaration order
(Hearts, Diamonds, Clubs, Spades). -/
inductive Suit where
  | Hearts
  | Diamonds
  | Clubs
  | Spades
deriving DecidableEq, Repr

/-- `Rank` is a numeric enum with values 2..14 (`Two = 2` … `Ace = 14`);
it is embedded directly as its numeric value. -/
abbrev Rank : Type := Nat

/-- `Card` of `types.ts`. -/
structure Card where
  rank : Rank
  suit : Suit
deriving DecidableEq, Repr

/-- Numeric values of the `HandRank` enum of `types.ts`
(`HighCard = 1` … `RoyalFlush = 10`). -/
def HandRank.HighCard : Nat := 1

def HandRank.OnePair : Nat := 2

def HandRank.TwoPair : Nat := 3

def HandRank.ThreeOfAKind : Nat := 4

def HandRank.Straight : Nat := 5

def HandRank.Flush : Nat := 6

def HandRank.FullHouse : Nat := 7

def HandRank.FourOfAKind : Nat := 8

def HandRank.StraightFlush : Nat := 9

def HandRank.RoyalFlush : Nat := 10

/-- `HandEvaluation` of `types.ts`; `rank` holds a `HandRank` value. -/
structure HandEvaluation where
  rank : Nat
  value : Nat
  description : String
  cards : List Card
deriving DecidableEq, Repr

/-- `GameStage` enum of `types.ts`. -/
inductive GameStage where
  | PreFlop
  | Flop
  | Turn
  | River
  | Showdown
deriving DecidableEq, Repr

/-- `Player` of `types.ts`.  Chip and bet amounts are JavaScript numbers used
as (possibly negative) integers, embedded as `Int`. -/
structure Player where
  id : Nat
  name : String
  chips : Int
  holeCards : List Card
  isActive : Bool
  isFolded : Bool
  isAllIn : Bool
  currentBet : Int
  totalBetInRound : Int
  isAI : Bool
deriving DecidableEq, Repr

/-- One entry of `GameState.sidePots`. -/
structure SidePot where
  amount : Int
  eligiblePlayers : List Nat
deriving DecidableEq, Repr

/-- `GameState` of `types.ts`. -/
structure GameState where
  players : List Player
  deck : List Card
  communityCards : List Card
  pot : Int
  currentBet : Int
  stage : GameStage
  dealerPosition : Nat
  smallBlindPosition : Nat
  bigBlindPosition : Nat
  currentPlayerIndex : Nat
  lastToActIndex : Nat
  lastRaiseAmount : Int
  smallBlind : Int
  bigBlind : Int
  sidePots : List SidePot
  bettingActions : Nat
  logs : List String
deriving DecidableEq, Repr

/-- Placeholder for an out-of-range JavaScript array access.  The engine is
only ever exercised at in-range indices (the source would crash otherwise). -/
def dummyPlayer : Player :=
  { id := 0, name := "", chips := 0, holeCards := [], isActive := false,
    isFolded := false, isAllIn := false, currentBet := 0, totalBetInRound := 0,
    isAI := false }

/-- `this.gameState.players[i]`. -/
def getPlayer (st : GameState) (i : Nat) : Player :=
  st.players.getD i dummyPlayer

/-- Write back the mutated player object at seat `i`. -/
def setPlayer (st : GameState) (i : Nat) (p : Player) : GameState :=
  { st with players := st.players.set i p }

/-- `addLog` (crypto.ts line 101). -/
def addLog (st : GameState) (entry : String) : GameState :=
  { st with logs := st.logs ++ [entry] }

/- ----------------- Hand evaluation (crypto.ts lines 680-865) ----------------- -/

/-- Stable insertion of a card into a descending-by-rank list: the card goes
in front of the first strictly lower rank, after equal ranks. -/
def insertDescByRank (c : Card) : List Card → List Card
  | [] => [c]
  | d :: ds => if d.rank < c.rank then c :: d :: ds else d :: insertDescByRank c ds

/-- `[...cards].sort((a, b) => b.rank - a.rank)`: stable descending sort by
rank (JavaScript `Array.prototype.sort` is stable). -/
def sortByRankDesc (cards : List Card) : List Card :=
  cards.foldl (fun acc c => insertDescByRank c acc) []

/-- Count one rank occurrence into an insertion-ordered association list,
modelling the insertion-ordered JavaScript `Map<Rank, number>`. -/
def bumpRank (l : List (Nat × Nat)) (r : Nat) : List (Nat × Nat) :=
  match l with
  | [] => [(r, 1)]
  | (a, n) :: rest => if a = r then (a, n + 1) :: rest else (a, n) :: bumpRank rest r

/-- `rankCounts` built by `ranks.forEach` (crypto.ts lines 687-690). -/
def tallyRanks (ranks : List Nat) : List (Nat × Nat) :=
  ranks.foldl bumpRank []

/-- Insertion step for a descending sort of naturals. -/
def insertDescNat (x : Nat) : List Nat → List Nat
  | [] => [x]
  | y :: ys => if y < x then x :: y :: ys else y :: insertDescNat x ys

/-- `.sort((a, b) => b - a)` on counts. -/
def sortDescNat (l : List Nat) : List Nat :=
  l.foldl (fun acc x => insertDescNat x acc) []

/-- Insertion step for `.sort((a, b) => b[1] - a[1] || b[0] - a[0])`:
count descending, ties by rank descending. -/
def insertCountRankDesc (x : Nat × Nat) : List (Nat × Nat) → List (Nat × Nat)
  | [] => [x]
  | y :: ys =>
    if y.2 < x.2 ∨ (y.2 = x.2 ∧ y.1 < x.1) then x :: y :: ys
    else y :: insertCountRankDesc x ys

/-- Sort the rank tally by occurrence count then rank, both descending. -/
def sortCountRankDesc (l : List (Nat × Nat)) : List (Nat × Nat) :=
  l.foldl (fun acc x => insertCountRankDesc x acc) []

/-- Group the sorted cards by suit, modelling the insertion-ordered
`Map<Suit, Card[]>` (crypto.ts lines 694-700). -/
def bumpSuit (l : List (Suit × List Card)) (c : Card) : List (Suit × List Card) :=
  match l with
  | [] => [(c.suit, [c])]
  | (s, cs) :: rest =>
    if s = c.suit then (s, cs ++ [c]) :: rest else (s, cs) :: bumpSuit rest c

/-- `suitCounts` built by `sortedCards.forEach`. -/
def groupBySuit (cards : List Card) : List (Suit × List Card) :=
  cards.foldl bumpSuit []

/-- First card of the given rank in the sorted hand
(`sortedCards.find(c => c.rank === r)`). -/
def firstCardOfRank (cards : List Card) (r : Nat) : Option Card :=
  cards.find? (fun c => c.rank = r)

/-- Scan of the regular-straight loop (crypto.ts lines 832-851): slide a
window of five over the strictly descending unique ranks and return the
first window of consecutive ranks. -/
def findStraightRun : List Nat → Option (List Nat)
  | r1 :: r2 :: r3 :: r4 :: r5 :: rest =>
    if r1 = r2 + 1 ∧ r2 = r3 + 1 ∧ r3 = r4 + 1 ∧ r4 = r5 + 1 then
      some [r1, r2, r3, r4, r5]
    else findStraightRun (r2 :: r3 :: r4 :: r5 :: rest)
  | _ => none

/-- Deduplicate keeping first occurrences, modelling the insertion-ordered
JavaScript `Set`. -/
def dedupFirst (l : List Nat) : List Nat :=
  l.foldl (fun acc r => if r ∈ acc then acc else acc ++ [r]) []

/-- `checkStraight(sortedCards)` (crypto.ts lines 825-865): regular straight
over the unique descending ranks, then the explicit wheel (A-2-3-4-5) check.
Returns the `isStraight` flag and the five straight cards. -/
def checkStraight (sortedCards : List Card) : Bool × List Card :=
  let uniqueRanks := sortDescNat (dedupFirst (sortedCards.map (fun c => c.rank)))
  match findStraightRun uniqueRanks with
  | some run => (true, run.filterMap (firstCardOfRank sortedCards))
  | none =>
    let wheel : List Nat := [14, 5, 4, 3, 2]
    if wheel.all (fun r => sortedCards.any (fun c => c.rank = r)) then
      (true, wheel.filterMap (firstCardOfRank sortedCards))
    else (false, [])

/-- `cards.reduce((sum, card, idx) => sum + card.rank * Math.pow(100, 4 - idx), 0)`
used by the Flush and High Card branches. -/
def weightedRankSum (cards : List Card) : Nat :=
  (cards.enum.foldl (fun sum p => sum + p.2.rank * 100 ^ (4 - p.1)) 0)

/-- `evaluateHand(cards)` (crypto.ts lines 680-810).  The `throw` on fewer
than five cards is an `error` result. -/
def evaluateHand (cards : List Card) : Except String HandEvaluation :=
  if cards.length < 5 then .error "Need at least 5 cards to evaluate hand"
  else
    let sortedCards := sortByRankDesc cards
    let ranks := sortedCards.map (fun c => c.rank)
    let rankCounts := tallyRanks ranks
    let counts := sortDescNat (rankCounts.map (fun p => p.2))
    let countRanks := (sortCountRankDesc rankCounts).map (fun p => p.1)
    let flushSuit := (groupBySuit sortedCards).find? (fun p => 5 ≤ p.2.length)
    let isFlush := flushSuit.isSome
    let flushCards := match flushSuit with
      | some p => p.2.take 5
      | none => []
    let straightResult := checkStraight sortedCards
    let isStraight := straightResult.1
    let straightCards := straightResult.2
    let straightHigh := (straightCards.getD 0 { rank := 0, suit := Suit.Hearts }).rank
    if isFlush ∧ isStraight ∧ straightHigh = 14 then
      .ok { rank := HandRank.RoyalFlush, value := 10000000,
            description := "Royal Flush", cards := straightCards }
    else if isFlush ∧ isStraight then
      .ok { rank := HandRank.StraightFlush, value := 9000000 + straightHigh,
            description := "Straight Flush", cards := straightCards }
    else if counts.getD 0 0 = 4 then
      let fourKind := countRanks.getD 0 0
      let kicker := countRanks.getD 1 0
      .ok { rank := HandRank.FourOfAKind, value := 8000000 + fourKind * 100 + kicker,
            description := "Four of a Kind",
            cards := (sortedCards.filter (fun c => c.rank = fourKind ∨ c.rank = kicker)).take 5 }
    else if counts.getD 0 0 = 3 ∧ counts.getD 1 0 = 2 then
      let threeKind := countRanks.getD 0 0
      let pair := countRanks.getD 1 0
      .ok { rank := HandRank.FullHouse, value := 7000000 + threeKind * 100 + pair,
            description := "Full House",
            cards := sortedCards.filter (fun c => c.rank = threeKind ∨ c.rank = pair) }
    else if isFlush then
      .ok { rank := HandRank.Flush, value := 6000000 + weightedRankSum flushCards,
            description := "Flush", cards := flushCards }
    else if isStraight then
      .ok { rank := HandRank.Straight, value := 5000000 + straightHigh,
            description := "Straight", cards := straightCards }
    else if counts.getD 0 0 = 3 then
      let threeKind := countRanks.getD 0 0
      let kickers := (countRanks.drop 1).take 2
      .ok { rank := HandRank.ThreeOfAKind,
            value := 4000000 + threeKind * 10000 + kickers.getD 0 0 * 100 + kickers.getD 1 0,
            description := "Three of a Kind",
            cards := (sortedCards.filter (fun c => c.rank = threeKind ∨ c.rank ∈ kickers)).take 5 }
    else if counts.getD 0 0 = 2 ∧ counts.getD 1 0 = 2 then
      let highPair := countRanks.getD 0 0
      let lowPair := countRanks.getD 1 0
      let kicker := countRanks.getD 2 0
      .ok { rank := HandRank.TwoPair,
            value := 3000000 + highPair * 10000 + lowPair * 100 + kicker,
            description := "Two Pair",
            cards := (sortedCards.filter
              (fun c => c.rank = highPair ∨ c.rank = lowPair ∨ c.rank = kicker)).take 5 }
    else if counts.getD 0 0 = 2 then
      let pairRank := countRanks.getD 0 0
      let kickers := (countRanks.drop 1).take 3
      .ok { rank := HandRank.OnePair,
            value := 2000000 + pairRank * 10000 + kickers.getD 0 0 * 100 +
              kickers.getD 1 0 * 10 + kickers.getD 2 0,
            description := "One Pair",
            cards := (sortedCards.filter (fun c => c.rank = pairRank ∨ c.rank ∈ kickers)).take 5 }
    else
      let highCards := sortedCards.take 5
      .ok { rank := HandRank.HighCard, value := 1000000 + weightedRankSum highCards,
            description := "High Card", cards := highCards }

/- ----------------- Winner selection (crypto.ts lines 361-402) ----------------- -/

/-- Core selection of `evaluateWinners` (crypto.ts lines 392-397): take the
highest `rank` among the evaluations, keep those evaluations, then keep the
best `value` among them; returns the winning player ids. -/
def selectByRankThenValue (evals : List (Nat × HandEvaluation)) : List Nat :=
  let maxRank := (evals.map (fun p => p.2.rank)).foldl max 0
  let topRankEvals := evals.filter (fun p => p.2.rank = maxRank)
  let bestValue := (topRankEvals.map (fun p => p.2.value)).foldl max 0
  (topRankEvals.filter (fun p => p.2.value = bestValue)).map (fun p => p.1)

/-- `evaluateWinners` (crypto.ts lines 361-402): sole remaining active player
wins outright; otherwise evaluate every active player holding at least five
cards (evaluation errors are swallowed), split among all actives when no
evaluation exists, else select by rank then value.  Returns the winners and
the insertion-ordered evaluations map. -/
def evaluateWinners (st : GameState) : List Player × List (Nat × HandEvaluation) :=
  let active := st.players.filter (fun p => !p.isFolded ∧ p.isActive)
  if active.length = 1 then (active, [])
  else
    let evaluations := active.foldl (fun acc p =>
      let hand := p.holeCards ++ st.communityCards
      if 5 ≤ hand.length then
        match evaluateHand hand with
        | .ok ev => acc ++ [(p.id, ev)]
        | .error _ => acc
      else acc) []
    if evaluations.length = 0 then (active, evaluations)
    else
      ((selectByRankThenValue evaluations).map (fun i => st.players.getD i dummyPlayer),
        evaluations)

/- ----------------- Side pots (crypto.ts lines 466-492) ----------------- -/

/-- Insertion step for an ascending sort of integers. -/
def insertAscInt (x : Int) : List Int → List Int
  | [] => [x]
  | y :: ys => if x < y then x :: y :: ys else y :: insertAscInt x ys

/-- `.sort((a, b) => a - b)` on the all-in contribution amounts. -/
def sortAscInt (l : List Int) : List Int :=
  l.foldl (fun acc x => insertAscInt x acc) []

/-- `calculateSidePots` (crypto.ts lines 466-492): walk the ascending all-in
contribution levels, forming a pot from each player's contribution clipped
to the level and in excess of the previous level, restricted to players who
reached the level; then one final main pot from everything above the last
level, with every active contributor eligible. -/
def calculateSidePots (st : GameState) : GameState :=
  let activePlayers := st.players.filter (fun p => !p.isFolded ∧ 0 < p.totalBetInRound)
  let allInAmounts :=
    sortAscInt ((activePlayers.filter (fun p => p.isAllIn)).map (fun p => p.totalBetInRound))
  let step := allInAmounts.foldl (fun (acc : Int × List SidePot) amount =>
    let potAmount := activePlayers.foldl
      (fun sum player => sum + max 0 (min player.totalBetInRound amount - acc.1)) 0
    if 0 < potAmount then
      let levelPot : SidePot :=
        { amount := potAmount,
          eligiblePlayers := (activePlayers.filter
            (fun p => amount ≤ p.totalBetInRound)).map (fun p => p.id) }
      (amount, acc.2 ++ [levelPot])
    else (amount, acc.2)) (0, [])
  let mainAmount := activePlayers.foldl
    (fun sum player => sum + max 0 (player.totalBetInRound - step.1)) 0
  let mainPot : SidePot :=
    { amount := mainAmount, eligiblePlayers := activePlayers.map (fun p => p.id) }
  let pots := if 0 < mainAmount then step.2 ++ [mainPot] else step.2
  { st with sidePots := pots }

/- ----------------- Betting flow (crypto.ts lines 140-357) ----------------- -/

/-- Scan for the first seat after `startIdx` (wrapping, offsets `1..n`) that is
neither folded nor out of chips, as in `advanceFrom` (crypto.ts lines 184-194). -/
def scanEligible (players : List Player) (startIdx : Nat) : Nat → Nat → Option Nat
  | 0, _ => none
  | fuel + 1, off =>
    let idx := (startIdx + off) % players.length
    let cand := players.getD idx dummyPlayer
    if !cand.isFolded ∧ 0 < cand.chips then some idx
    else scanEligible players startIdx fuel (off + 1)

/-- `advanceFrom(startIdx)` (crypto.ts lines 184-194): set
`currentPlayerIndex` to the first eligible seat after `startIdx`, or leave
it unchanged when nobody qualifies. -/
def advanceFrom (st : GameState) (startIdx : Nat) : GameState :=
  match scanEligible st.players startIdx st.players.length 1 with
  | some idx => { st with currentPlayerIndex := idx }
  | none => st

/-- Scan for the first seat after `fromIdx` (wrapping, offsets `1..n`) with
chips and active, as in the `nextIdx` helper of `startNewHandInternal`
(crypto.ts lines 548-555). -/
def scanActive (players : List Player) (fromIdx : Nat) : Nat → Nat → Option Nat
  | 0, _ => none
  | fuel + 1, off =>
    let idx := (fromIdx + off) % players.length
    let cand := players.getD idx dummyPlayer
    if 0 < cand.chips ∧ cand.isActive then some idx
    else scanActive players fromIdx fuel (off + 1)

/-- `nextIdx(from)` with its `return from` fallback. -/
def nextIdx (players : List Player) (fromIdx : Nat) : Nat :=
  (scanActive players fromIdx players.length 1).getD fromIdx

/-- `isBettingRoundComplete(originIdx)` (crypto.ts lines 163-182), always
called with a defined `originIdx`.  The three stage branches of the source
all compare `originIdx` with `lastToActIndex` and are kept verbatim. -/
def isBettingRoundComplete (st : GameState) (originIdx : Nat) : Bool :=
  let contenders := st.players.filter (fun p => !p.isFolded ∧ !p.isAllIn ∧ 0 < p.chips)
  if contenders.length = 0 then true
  else if !(contenders.all (fun p => p.currentBet = st.currentBet)) then false
  else if st.stage = GameStage.PreFlop then originIdx = st.lastToActIndex
  else if st.currentBet = 0 then originIdx = st.lastToActIndex
  else originIdx = st.lastToActIndex

/-- Backward scan (offsets `0..n-1` counter-clockwise from the dealer) for the
first non-folded seat, from `resetRoundBets` (crypto.ts lines 346-354). -/
def scanBackNotFolded (players : List Player) (dealer : Nat) : Nat → Nat → Option Nat
  | 0, _ => none
  | fuel + 1, off =>
    let n := players.length
    let idx := (dealer + n - off) % n
    if !(players.getD idx dummyPlayer).isFolded then some idx
    else scanBackNotFolded players dealer fuel (off + 1)

/-- `resetRoundBets` (crypto.ts lines 341-357): zero every per-street bet,
recompute `lastToActIndex` as the closest non-folded seat at or before the
dealer going backward, and reset the minimum raise to the big blind. -/
def resetRoundBets (st : GameState) : GameState :=
  let players := st.players.map (fun p => { p with currentBet := 0 })
  let newLast := (scanBackNotFolded players st.dealerPosition players.length 0).getD
    st.lastToActIndex
  { st with
    players := players, currentBet := 0, lastToActIndex := newLast,
    lastRaiseAmount := st.bigBlind }

/-- `burn()` (crypto.ts lines 654-656): discard the top card. -/
def burn (st : GameState) : GameState :=
  { st with deck := st.deck.drop 1 }

/-- Draw `n` cards off the top (`drawMany`, crypto.ts lines 651-653) and push
them onto the board. -/
def dealCommunity (st : GameState) (n : Nat) : GameState :=
  { st with deck := st.deck.drop n, communityCards := st.communityCards ++ st.deck.take n }

/-- `nextStage()` (crypto.ts lines 310-339): advance the street, burn and deal
(3 for the Flop, 1 each for Turn and River) and reset the per-street bets;
River moves to Showdown, and Showdown is inert (the `default` branch). -/
def nextStage (st : GameState) : GameState :=
  match st.stage with
  | GameStage.PreFlop =>
    resetRoundBets (dealCommunity (burn (addLog { st with stage := GameStage.Flop } "--- Flop ---")) 3)
  | GameStage.Flop =>
    resetRoundBets (dealCommunity (burn (addLog { st with stage := GameStage.Turn } "--- Turn ---")) 1)
  | GameStage.Turn =>
    resetRoundBets (dealCommunity (burn (addLog { st with stage := GameStage.River } "--- River ---")) 1)
  | GameStage.River => { st with stage := GameStage.Showdown }
  | GameStage.Showdown => st

/-- Remaining streets before Showdown, the termination measure of the
auto-runout loop. -/
def stageFuel : GameStage → Nat
  | GameStage.PreFlop => 4
  | GameStage.Flop => 3
  | GameStage.Turn => 2
  | GameStage.River => 1
  | GameStage.Showdown => 0

/-- The `while (stage !== Showdown) nextStage()` auto-runout loop of
`postActionHandler` (crypto.ts lines 215-217). -/
def runOut (st : GameState) : GameState :=
  if st.stage = GameStage.Showdown then st else runOut (nextStage st)
termination_by stageFuel st.stage
decreasing_by
  cases hs : st.stage <;>
    simp [hs, nextStage, resetRoundBets, dealCommunity, burn, addLog, stageFuel] at *

/-- `postActionHandler(originIdx)` (crypto.ts lines 196-224): count the
action; jump to Showdown when one player remains; advance the turn; when the
betting round is complete, advance the stage, auto-run-out if nobody can act,
else hand action to the player after the dealer. -/
def postActionHandler (st : GameState) (originIdx : Nat) : GameState :=
  let st1 : GameState := { st with bettingActions := st.bettingActions + 1 }
  let remaining := st1.players.filter (fun p => !p.isFolded)
  if remaining.length = 1 then { st1 with stage := GameStage.Showdown }
  else
    let st2 := advanceFrom st1 originIdx
    if isBettingRoundComplete st2 originIdx then
      let st3 := nextStage st2
      if st3.stage ≠ GameStage.Showdown then
        let canAct := st3.players.any (fun p => !p.isFolded ∧ !p.isAllIn ∧ 0 < p.chips)
        if !canAct then runOut st3
        else advanceFrom st3 st3.dealerPosition
      else st3
    else st2

/-- `check(playerId)` (crypto.ts lines 262-268). -/
def check (st : GameState) (playerId : Nat) : GameState :=
  let player := getPlayer st playerId
  if player.isFolded ∨ player.isAllIn ∨ st.stage = GameStage.Showdown ∨ player.chips ≤ 0 then st
  else if player.currentBet ≠ st.currentBet then st
  else postActionHandler (addLog st (player.name ++ " checks")) playerId

/-- `call(playerId)` (crypto.ts lines 270-286): a non-positive shortfall
degrades to a check, otherwise wager `min(shortfall, chips)`. -/
def call (st : GameState) (playerId : Nat) : GameState :=
  let player := getPlayer st playerId
  if player.isFolded ∨ player.isAllIn ∨ st.stage = GameStage.Showdown ∨ player.chips ≤ 0 then st
  else
    let toCall := st.currentBet - player.currentBet
    if toCall ≤ 0 then check st playerId
    else
      let wager := min toCall player.chips
      let player1 : Player := { player with
        chips := player.chips - wager,
        currentBet := player.currentBet + wager,
        totalBetInRound := player.totalBetInRound + wager,
        isAllIn := if player.chips - wager = 0 then true else player.isAllIn }
      let st1 : GameState := { setPlayer st playerId player1 with pot := st.pot + wager }
      postActionHandler (addLog st1 (player.name ++ " calls " ++ toString wager)) playerId

/-- `bet(playerId, amount, skipPost)` (crypto.ts lines 227-260): guard, the
under-minimum fallback to `call`, the capped wager, the raise bookkeeping,
then (unless `skipPost`) the log entry and the post-action flow. -/
def bet (st : GameState) (playerId : Nat) (amount : Int) (skipPost : Bool) : GameState :=
  let player := getPlayer st playerId
  if player.isFolded ∨ player.isAllIn ∨ st.stage = GameStage.Showdown ∨
      player.chips ≤ 0 ∨ amount ≤ 0 then st
  else
    let prevBet := st.currentBet
    let minRaise := if prevBet = 0 then st.bigBlind else st.lastRaiseAmount
    if amount < minRaise ∧ amount < player.chips then call st playerId
    else
      let wager := min amount player.chips
      let player1 : Player := { player with
        chips := player.chips - wager,
        currentBet := player.currentBet + wager,
        totalBetInRound := player.totalBetInRound + wager,
        isAllIn := if player.chips - wager = 0 then true else player.isAllIn }
      let st1 : GameState := { setPlayer st playerId player1 with pot := st.pot + wager }
      let st2 : GameState :=
        if prevBet < player1.currentBet then
          { st1 with
            lastRaiseAmount := player1.currentBet - prevBet,
            currentBet := player1.currentBet, lastToActIndex := playerId }
        else st1
      if skipPost then st2
      else
        let actionMsg :=
          if prevBet < player1.currentBet then
            if prevBet = 0 then "bets " ++ toString player1.currentBet
            else "raises to " ++ toString player1.currentBet
          else "calls " ++ toString wager
        postActionHandler (addLog st2 (player.name ++ " " ++ actionMsg)) playerId

/-- `fold(playerId)` (crypto.ts lines 288-294). -/
def fold (st : GameState) (playerId : Nat) : GameState :=
  let player := getPlayer st playerId
  if player.isFolded ∨ player.isAllIn ∨ st.stage = GameStage.Showdown then st
  else postActionHandler
    (addLog (setPlayer st playerId { player with isFolded := true })
      (player.name ++ " folds")) playerId

/-- `allIn(playerId)` (crypto.ts lines 296-302): log, bet the whole stack,
then mark the player all-in. -/
def allIn (st : GameState) (playerId : Nat) : GameState :=
  let player := getPlayer st playerId
  if player.isFolded ∨ player.isAllIn ∨ st.stage = GameStage.Showdown ∨ player.chips ≤ 0 then st
  else
    let st1 := addLog st (player.name ++ " goes all-in (" ++ toString player.chips ++ ")")
    let st2 := bet st1 playerId player.chips false
    setPlayer st2 playerId { getPlayer st2 playerId with isAllIn := true }

/- ------------- Hand setup (crypto.ts lines 504-602, 651-661) ------------- -/

/-- The `postBlind` closure of `startNewHandInternal` (crypto.ts lines
586-594): force a wager of `min(amount, chips)` without triggering the
betting flow. -/
def postBlind (st : GameState) (idx : Nat) (amount : Int) : GameState :=
  let p := getPlayer st idx
  let stake := min amount p.chips
  let p1 : Player := { p with
    chips := p.chips - stake,
    currentBet := p.currentBet + stake,
    totalBetInRound := p.totalBetInRound + stake,
    isAllIn := if p.chips - stake = 0 then true else p.isAllIn }
  { setPlayer st idx p1 with pot := st.pot + stake }

/-- One round-robin pass of `dealHoleCards` (crypto.ts lines 657-661): every
seat draws one card off the top in seat order. -/
def dealOneRound (st : GameState) : GameState :=
  (List.range st.players.length).foldl (fun s i =>
    let p := getPlayer s i
    let s1 := setPlayer s i { p with holeCards := p.holeCards ++ s.deck.take 1 }
    { s1 with deck := s1.deck.drop 1 }) st

/-- `dealHoleCards`: two round-robin passes. -/
def dealHoleCards (st : GameState) : GameState :=
  dealOneRound (dealOneRound st)

/-- `startNewHandInternal(externalDeck?)` (crypto.ts lines 540-602).  The
source builds a `Math.random`-shuffled deck when no external deck is given;
that nondeterministic fresh deck is supplied here as the `freshDeck`
argument, used exactly when `externalDeck` is `none`. -/
def startNewHandInternal (st : GameState) (externalDeck : Option (List Card))
    (freshDeck : List Card) : GameState :=
  let players := st.players
  let activeCount := (players.filter (fun p => 0 < p.chips ∧ p.isActive)).length
  if activeCount < 2 then { st with stage := GameStage.Showdown }
  else
    let dealerPos := nextIdx players st.dealerPosition
    let sbPos := if activeCount = 2 then dealerPos else nextIdx players dealerPos
    let bbPos := if activeCount = 2 then nextIdx players dealerPos else nextIdx players sbPos
    let st0 : GameState :=
      { st with
        dealerPosition := dealerPos, smallBlindPosition := sbPos, bigBlindPosition := bbPos }
    let st1 := addLog st0 "--- New Hand ---"
    let st2 : GameState :=
      { st1 with
        pot := 0, sidePots := [], currentBet := 0, stage := GameStage.PreFlop,
        communityCards := [], bettingActions := 0,
        players := st1.players.map (fun p =>
          { p with
            holeCards := [], isFolded := false, isAllIn := false, currentBet := 0,
            totalBetInRound := 0 }) }
    let st3 : GameState := { st2 with deck := externalDeck.getD freshDeck }
    let st4 := dealHoleCards st3
    let st5 := postBlind st4 sbPos st4.smallBlind
    let st6 := postBlind st5 bbPos st5.bigBlind
    { st6 with
      currentBet := (getPlayer st6 bbPos).currentBet,
      currentPlayerIndex := nextIdx st6.players bbPos,
      lastToActIndex := bbPos,
      lastRaiseAmount := st6.bigBlind }

/-- Suit decoding order of `startNewHandWithPackedDeck` (crypto.ts line 523). -/
def suitValues : List Suit := [Suit.Hearts, Suit.Diamonds, Suit.Clubs, Suit.Spades]

/-- Byte-to-card decoding of `startNewHandWithPackedDeck` (crypto.ts lines
524-529): `suitIdx = val % 4`, `rankIdx = floor(val / 4)`, rank value
`rankIdx + 2`. -/
def decodeCardByte (val : Nat) : Card :=
  { rank := val / 4 + 2, suit := suitValues.getD (val % 4) Suit.Hearts }

/-- The deck decoded from the first 52 bytes (`bytes.slice(0, 52)`). -/
def decodePackedDeck (bytes : List Nat) : List Card :=
  (bytes.take 52).map decodeCardByte

/-- `startNewHandWithPackedDeck(packedDeck)` (crypto.ts lines 504-533) on an
already-decoded byte sequence: fewer than 52 bytes throws, otherwise the
first 52 bytes are decoded and the hand is started with that exact order. -/
def startNewHandWithPackedDeck (st : GameState) (bytes : List Nat) :
    Except String GameState :=
  if bytes.length < 52 then .error "Packed deck must contain 52 bytes"
  else .ok (startNewHandInternal st (some (decodePackedDeck bytes)) [])

/-- Total chips in front of the players plus the pot: the conserved quantity
of every wagering operation. -/
def chipsPlusPot (st : GameState) : Int :=
  (st.players.map (fun p => p.chips)).sum + st.pot

/-- The per-player chip stacks, for stating that an operation moves no chips. -/
def chipsMap (st : GameState) : List Int :=
  st.players.map (fun p => p.chips)

/-- `∀ p ∈ players, 0 ≤ p.chips`: no player is ever in debt. -/
def NonNegChips (st : GameState) : Prop :=
  ∀ p ∈ st.players, 0 ≤ p.chips

/-- Two states agree on every player's stack and on the pot: the relation
every non-wagering helper of the engine preserves. -/
def ChipsEq (a b : GameState) : Prop :=
  chipsMap a = chipsMap b ∧ a.pot = b.pot

/- ----------------- Concrete sample inputs ----------------- -/

/-- Pit two five-card hands against each other through `evaluateHand` and the
rank-then-value winner selection of `evaluateWinners`; player 0 holds
`cards0`, player 1 holds `cards1`. -/
def headToHead (cards0 cards1 : List Card) : Except String (List Nat) := do
  let e0 ← evaluateHand cards0
  let e1 ← evaluateHand cards1
  pure (selectByRankThenValue [(0, e0), (1, e1)])

/-- A♠ A♥ A♦ A♣ K♠: four aces. -/
def quadAcesHand : List Card :=
  [{ rank := 14, suit := Suit.Spades }, { rank := 14, suit := Suit.Hearts },
   { rank := 14, suit := Suit.Diamonds }, { rank := 14, suit := Suit.Clubs },
   { rank := 13, suit := Suit.Spades }]

/-- K♥ 9♥ 7♥ 5♥ 2♥: a king-high flush. -/
def kingFlushHand : List Card :=
  [{ rank := 13, suit := Suit.Hearts }, { rank := 9, suit := Suit.Hearts },
   { rank := 7, suit := Suit.Hearts }, { rank := 5, suit := Suit.Hearts },
   { rank := 2, suit := Suit.Hearts }]

/-- A♦ 2♣ 3♥ 4♠ 5♦: the wheel straight of the spec's test property. -/
def wheelHand : List Card :=
  [{ rank := 14, suit := Suit.Diamonds }, { rank := 2, suit := Suit.Clubs },
   { rank := 3, suit := Suit.Hearts }, { rank := 4, suit := Suit.Spades },
   { rank := 5, suit := Suit.Diamonds }]

/-- 2♥ 3♦ 4♣ 5♠ 6♥: a six-high straight of mixed suits. -/
def sixHighStraightHand : List Card :=
  [{ rank := 2, suit := Suit.Hearts }, { rank := 3, suit := Suit.Diamonds },
   { rank := 4, suit := Suit.Clubs }, { rank := 5, suit := Suit.Spades },
   { rank := 6, suit := Suit.Hearts }]

/-- A sample player at seat `i` with the given stack, whole-hand contribution
and all-in flag. -/
def samplePlayer (i : Nat) (chips tbr : Int) (allin : Bool) : Player :=
  { id := i, name := "P" ++ toString i, chips := chips, holeCards := [],
    isActive := true, isFolded := false, isAllIn := allin, currentBet := 0,
    totalBetInRound := tbr, isAI := false }

/-- Settlement state with two all-in levels: seat 0 all-in for 50, seat 1
all-in for 100, seats 2 and 3 at 200 each (550 chips in the pot). -/
def sidePotState : GameState :=
  { players := [samplePlayer 0 0 50 true, samplePlayer 1 0 100 true,
      samplePlayer 2 100 200 false, samplePlayer 3 100 200 false],
    deck := [], communityCards := [], pot := 550, currentBet := 0,
    stage := GameStage.River, dealerPosition := 0, smallBlindPosition := 0,
    bigBlindPosition := 1, currentPlayerIndex := 0, lastToActIndex := 0,
    lastRaiseAmount := 20, smallBlind := 10, bigBlind := 20, sidePots := [],
    bettingActions := 0, logs := [] }

/-- Pre-flop heads-up state right after the blinds: seat 1 (dealer) posted the
small blind, seat 0 the big blind, and it is seat 0's turn to act. -/
def headsUpPreFlop : GameState :=
  { players :=
      [{ samplePlayer 0 980 20 false with currentBet := 20 },
       { samplePlayer 1 990 10 false with currentBet := 10 }],
    deck := [], communityCards := [], pot := 30, currentBet := 20,
    stage := GameStage.PreFlop, dealerPosition := 1, smallBlindPosition := 1,
    bigBlindPosition := 0, currentPlayerIndex := 0, lastToActIndex := 0,
    lastRaiseAmount := 20, smallBlind := 10, bigBlind := 20, sidePots := [],
    bettingActions := 0, logs := [] }

/-- A neutral two-seat state used to instantiate the universally quantified
theorems at a concrete input. -/
def sampleState : GameState :=
  { players := [samplePlayer 0 1000 0 false, samplePlayer 1 1000 0 false],
    deck := [], communityCards := [], pot := 0, currentBet := 0,
    stage := GameStage.PreFlop, dealerPosition := 0, smallBlindPosition := 0,
    bigBlindPosition := 0, currentPlayerIndex := 0, lastToActIndex := 0,
    lastRaiseAmount := 20, smallBlind := 10, bigBlind := 20, sidePots := [],
    bettingActions := 0, logs := [] }

/-- `sampleState` with seat 0 folded, for the absorbed-action witness. -/
def sampleStateFolded : GameState :=
  { sampleState with players :=
      [{ samplePlayer 0 1000 0 false with isFolded := true },
       samplePlayer 1 1000 0 false] }

end Poker

namespace Dealer

/-- Storage in which every session is committed (`saltHash = 7`, here under an
identity salt hash) and VRF-fulfilled, awaiting reveal. -/
def sampleGames : GamesMap :=
  fun _ => { emptySession with saltHash := 7, vrfFulfilled := true }

end Dealer

namespace Dealer

theorem deckPermBelow52_id : DeckPermBelow52 (fun i => i) :=
  ⟨Equiv.refl ℕ, fun _ => rfl, fun _ _ => rfl⟩

theorem deckPermBelow52_swap {d : Nat → Nat} (hd : DeckPermBelow52 d)
    {i j : Nat} (hi : i < 52) (hj : j < 52) :
    DeckPermBelow52 (fySwap d i j) := by
  obtain ⟨σ, hσ, hfix⟩ := hd
  refine ⟨σ * Equiv.swap i j, ?_, ?_⟩
  · intro k
    by_cases hki : k = i
    · simp [fySwap, hki, hσ, Equiv.Perm.mul_apply]
    · by_cases hkj : k = j
      · simp [fySwap, hki, hkj, hσ, Equiv.Perm.mul_apply, Equiv.swap_apply_right]
      · simp [fySwap, hki, hkj, hσ, Equiv.Perm.mul_apply,
          Equiv.swap_apply_of_ne_of_ne hki hkj]
  · intro m hm
    have hmi : m ≠ i := by omega
    have hmj : m ≠ j := by omega
    simp [Equiv.Perm.mul_apply, Equiv.swap_apply_of_ne_of_ne hmi hmj, hfix m hm]

theorem fyLoop_perm (h : Nat → Nat → Nat) :
    ∀ (n : Nat), n ≤ 51 → ∀ (s : Nat) (d : Nat → Nat),
      DeckPermBelow52 d → DeckPermBelow52 (fyLoop h s d n) := by
  intro n
  induction n with
  | zero => intro _ s d hd; exact hd
  | succ m ih =>
    intro hle s d hd
    have hi : m + 1 < 52 := by omega
    have hj : h s (m + 1) % (m + 1 + 1) < 52 := by
      have := Nat.mod_lt (h s (m + 1)) (y := m + 1 + 1) (by omega)
      omega
    exact ih (by omega) _ _ (deckPermBelow52_swap hd hi hj)

theorem perm_fix_maps_below {σ : Equiv.Perm ℕ} (hfix : ∀ m, 52 ≤ m → σ m = m)
    {k : Nat} (hk : k < 52) : σ k < 52 := by
  by_contra hge
  have h52 : 52 ≤ σ k := by omega
  have : σ (σ k) = σ k := hfix _ h52
  have : σ k = k := σ.injective this
  omega

theorem deckPermBelow52_ofFn_perm {d : Nat → Nat} (hd : DeckPermBelow52 d) :
    (List.ofFn (fun k : Fin 52 => d k.val)).Perm (List.range 52) := by
  obtain ⟨σ, hσ, hfix⟩ := hd
  have hinj : Function.Injective (fun k : Fin 52 => d k.val) := by
    intro a b hab
    simp only [hσ] at hab
    exact Fin.val_injective (σ.injective hab)
  have hinvfix : ∀ m, 52 ≤ m → σ.symm m = m := by
    intro m hm
    have := hfix m hm
    calc σ.symm m = σ.symm (σ m) := by rw [this]
    _ = m := σ.symm_apply_apply m
  rw [List.perm_ext_iff_of_nodup (List.nodup_ofFn.mpr hinj) (List.nodup_range 52)]
  intro a
  simp only [List.mem_ofFn, Set.mem_range, List.mem_range]
  constructor
  · rintro ⟨k, rfl⟩
    simpa [hσ] using perm_fix_maps_below hfix k.isLt
  · intro ha
    have hlt : σ.symm a < 52 := perm_fix_maps_below (σ := σ.symm) hinvfix ha
    refine ⟨⟨σ.symm a, hlt⟩, ?_⟩
    simp [hσ]

end Dealer

namespace Dealer

/-- C1: for every 256-bit seed (indeed for every hash function and seed), the
deterministic shuffle `_shuffle(seed)` returns exactly 52 bytes that are a
permutation of the card indices 0..51 — no index duplicated, none omitted. -/
theorem C1_shuffle_is_permutation (h : Nat → Nat → Nat) (seed : Nat) :
    (shuffleDeckBytes h seed).length = 52 ∧
    (shuffleDeckBytes h seed).Perm (List.range 52) := by
  have hperm := fyLoop_perm h 51 (le_refl 51) seed (fun i => i) deckPermBelow52_id
  exact ⟨by simp [shuffleDeckBytes], deckPermBelow52_ofFn_perm hperm⟩

end Dealer

namespace Dealer

/-- C4: for every fulfilled session and every choice of dealt cards and
positions, a reveal whose salt does not hash to the stored commitment
reverts: it never returns a validity result, and the stored session is
exactly what it was before the call. -/
theorem C4_reveal_salt_mismatch_fails (hashSalt : Nat → Nat)
    (hashPair hashFY : Nat → Nat → Nat) (games : GamesMap) (gameId salt : Nat)
    (dealtCards cardPositions : List Nat)
    (hvrf : (games gameId).vrfFulfilled = true)
    (hsalt : hashSalt salt ≠ (games gameId).saltHash) :
    (∀ r, revealAndVerify hashSalt hashPair hashFY games gameId salt
        dealtCards cardPositions ≠ .ok r) ∧
    runRevealAndVerify hashSalt hashPair hashFY games gameId salt
        dealtCards cardPositions = games := by
  have hres : ∀ r, revealAndVerify hashSalt hashPair hashFY games gameId salt
      dealtCards cardPositions ≠ .ok r := by
    intro r
    unfold revealAndVerify
    simp only [hvrf]
    by_cases hend : (games gameId).gameEnded
    · simp [hend]
    · by_cases hlen : dealtCards.length = cardPositions.length
      · simp [hend, hlen, hsalt]
      · simp [hend, hlen]
  refine ⟨hres, ?_⟩
  unfold runRevealAndVerify
  cases hcase : revealAndVerify hashSalt hashPair hashFY games gameId salt
      dealtCards cardPositions with
  | ok r => exact absurd hcase (hres r)
  | error e => rfl

/-- Witness for C4 at a concrete fulfilled session whose commitment is 7 under
the identity salt hash: revealing salt 1 fails and leaves storage intact. -/
theorem C4_reveal_salt_mismatch_fails_witness :
    (∀ r, revealAndVerify id (fun _ _ => 0) (fun _ _ => 0) sampleGames 3 1
        [0] [0] ≠ .ok r) ∧
    runRevealAndVerify id (fun _ _ => 0) (fun _ _ => 0) sampleGames 3 1 [0] [0] =
      sampleGames :=
  C4_reveal_salt_mismatch_fails id (fun _ _ => 0) (fun _ _ => 0) sampleGames 3 1
    [0] [0] rfl (by decide)

end Dealer

namespace Dealer

/-- If the first `k` claimed pairs pass the position check and match the deck,
and the pair at index `k` claims a position `≥ 52`, the card-check loop
reaches that pair and reverts with `invalid position`. -/
theorem checkDealtCards_position_revert (deck : List Nat) :
    ∀ (k : Nat) (dc cp : List Nat), dc.length = cp.length → k < cp.length →
    (∀ m, m < k → cp.getD m 0 < 52 ∧ deck.getD (cp.getD m 0) 0 = dc.getD m 0) →
    52 ≤ cp.getD k 0 →
    checkDealtCards deck dc cp = .error "invalid position" := by
  intro k
  induction k with
  | zero =>
    intro dc cp hlen hk _ hpos
    match cp, dc with
    | [], _ => simp at hk
    | p :: ps, [] => simp at hlen
    | p :: ps, c :: cs =>
      simp only [List.getD_cons_zero] at hpos
      simp [checkDealtCards, hpos]
  | succ k ih =>
    intro dc cp hlen hk hmatch hpos
    match cp, dc with
    | [], _ => simp at hk
    | p :: ps, [] => simp at hlen
    | p :: ps, c :: cs =>
      have h0 := hmatch 0 (Nat.succ_pos k)
      simp only [List.getD_cons_zero] at h0
      have hplt : ¬ 52 ≤ p := by omega
      simp only [checkDealtCards, if_neg hplt, h0.2, ne_eq, not_true_eq_false,
        if_false, ite_false]
      exact ih cs ps (by simpa using hlen) (by simpa using hk)
        (fun m hm => by simpa using hmatch (m + 1) (by omega)) (by simpa using hpos)

/-- C5 (amended): a reused commitment, a reveal before VRF fulfillment, a
salt/hash mismatch, and a claimed position `≥ 52` that the verification loop
reaches (one not preceded by a pair that already failed the deck comparison)
each revert the operation and leave the stored sessions exactly as before. -/
theorem C5_protocol_violations_revert (hashSalt : Nat → Nat)
    (hashPair hashFY : Nat → Nat → Nat) (games : GamesMap)
    (sender gameId saltHash salt : Nat) (dc cp : List Nat) (k : Nat) :
    ((games gameId).saltHash ≠ 0 →
      commitSalt games sender gameId saltHash = .error "already committed" ∧
      runCommitSalt games sender gameId saltHash = games) ∧
    ((games gameId).vrfFulfilled = false →
      revealAndVerify hashSalt hashPair hashFY games gameId salt dc cp =
        .error "VRF not fulfilled" ∧
      runRevealAndVerify hashSalt hashPair hashFY games gameId salt dc cp = games) ∧
    ((games gameId).vrfFulfilled = true → (games gameId).gameEnded = false →
      dc.length = cp.length → hashSalt salt ≠ (games gameId).saltHash →
      revealAndVerify hashSalt hashPair hashFY games gameId salt dc cp =
        .error "salt mismatch" ∧
      runRevealAndVerify hashSalt hashPair hashFY games gameId salt dc cp = games) ∧
    ((games gameId).vrfFulfilled = true → (games gameId).gameEnded = false →
      dc.length = cp.length → hashSalt salt = (games gameId).saltHash →
      k < cp.length →
      (∀ m, m < k →
        cp.getD m 0 < 52 ∧
        (shuffleDeckBytes hashFY (hashPair (games gameId).pythSeed salt)).getD
          (cp.getD m 0) 0 = dc.getD m 0) →
      52 ≤ cp.getD k 0 →
      revealAndVerify hashSalt hashPair hashFY games gameId salt dc cp =
        .error "invalid position" ∧
      runRevealAndVerify hashSalt hashPair hashFY games gameId salt dc cp = games) := by
  refine ⟨?_, ?_, ?_, ?_⟩
  · intro hsh
    have h1 : commitSalt games sender gameId saltHash = .error "already committed" := by
      simp [commitSalt, hsh]
    exact ⟨h1, by simp [runCommitSalt, h1]⟩
  · intro hvrf
    have h1 : revealAndVerify hashSalt hashPair hashFY games gameId salt dc cp =
        .error "VRF not fulfilled" := by
      unfold revealAndVerify
      simp [hvrf]
    exact ⟨h1, by simp [runRevealAndVerify, h1]⟩
  · intro hvrf hend hlen hsalt
    have h1 : revealAndVerify hashSalt hashPair hashFY games gameId salt dc cp =
        .error "salt mismatch" := by
      unfold revealAndVerify
      simp [hvrf, hend, hlen, hsalt]
    exact ⟨h1, by simp [runRevealAndVerify, h1]⟩
  · intro hvrf hend hlen hsalt hk hmatch hpos
    have hloop := checkDealtCards_position_revert
      (shuffleDeckBytes hashFY (hashPair (games gameId).pythSeed salt))
      k dc cp hlen hk hmatch hpos
    have h1 : revealAndVerify hashSalt hashPair hashFY games gameId salt dc cp =
        .error "invalid position" := by
      unfold revealAndVerify
      simp [hvrf, hend, hlen, hsalt, hloop]
    exact ⟨h1, by simp [runRevealAndVerify, h1]⟩

/-- Witness for the amended C5, every violation discharged at a concrete
input: session 3 of `sampleGames` is committed (so a second commit reverts),
an all-empty storage is unfulfilled (so reveal reverts), revealing salt 1
against commitment 7 reverts, and a first-pair position of 60 reverts. -/
theorem C5_protocol_violations_revert_witness :
    (commitSalt sampleGames 9 3 5 = .error "already committed" ∧
      runCommitSalt sampleGames 9 3 5 = sampleGames) ∧
    (revealAndVerify id (fun _ _ => 0) (fun _ _ => 0) (fun _ => emptySession) 3 7
        [0] [0] = .error "VRF not fulfilled" ∧
      runRevealAndVerify id (fun _ _ => 0) (fun _ _ => 0) (fun _ => emptySession) 3 7
        [0] [0] = fun _ => emptySession) ∧
    (revealAndVerify id (fun _ _ => 0) (fun _ _ => 0) sampleGames 3 1 [0] [0] =
        .error "salt mismatch" ∧
      runRevealAndVerify id (fun _ _ => 0) (fun _ _ => 0) sampleGames 3 1 [0] [0] =
        sampleGames) ∧
    (revealAndVerify id (fun _ _ => 0) (fun _ _ => 0) sampleGames 3 7 [9] [60] =
        .error "invalid position" ∧
      runRevealAndVerify id (fun _ _ => 0) (fun _ _ => 0) sampleGames 3 7 [9] [60] =
        sampleGames) :=
  ⟨(C5_protocol_violations_revert id (fun _ _ => 0) (fun _ _ => 0) sampleGames 9 3 5 7
      [0] [0] 0).1 (by decide),
   (C5_protocol_violations_revert id (fun _ _ => 0) (fun _ _ => 0) (fun _ => emptySession)
      9 3 5 7 [0] [0] 0).2.1 rfl,
   (C5_protocol_violations_revert id (fun _ _ => 0) (fun _ _ => 0) sampleGames 9 3 5 1
      [0] [0] 0).2.2.1 rfl rfl rfl (by decide),
   (C5_protocol_violations_revert id (fun _ _ => 0) (fun _ _ => 0) sampleGames 9 3 5 7
      [9] [60] 0).2.2.2 rfl rfl rfl rfl (by decide) (fun m hm => absurd hm (by omega))
      (by decide)⟩

/-- Counterexample to C5 as stated: with a fulfilled session and matching
salt, the claimed pairs `[(0 at position 0), (9 at position 200)]` contain
the malformed position 200 ≥ 52, yet the operation does not abort — the
first pair already mismatches the reconstructed deck, the loop breaks before
checking the second position, and the reveal returns the validity result
`false` (and marks the session ended) instead of failing. -/
theorem C5_position_check_skipped_counterexample :
    52 ≤ 200 ∧
    revealValidity (revealAndVerify id (fun _ _ => 0) (fun _ _ => 0) sampleGames 3 7
      [0, 9] [0, 200]) = some false ∧
    (runRevealAndVerify id (fun _ _ => 0) (fun _ _ => 0) sampleGames 3 7
      [0, 9] [0, 200] 3).gameEnded = true := by
  refine ⟨by omega, ?_, ?_⟩ <;> rfl

end Dealer

namespace Poker

/-- Counterexample to C2 as stated: four aces evaluate to a strictly higher
rank category (8) than a king-high flush (6), yet their `value` (8001413) is
strictly *smaller* than the flush's (1315070502) — the flush branch weights
kickers with powers of 100 that overflow the million-sized category bands —
and the engine's winner selection still awards the pot to the quads (the
hand with the smaller `value`), so the `value` integers alone do not decide
the winner. -/
theorem C2_value_not_monotonic_counterexample :
    (evaluateHand quadAcesHand).map HandEvaluation.rank = .ok 8 ∧
    (evaluateHand quadAcesHand).map HandEvaluation.value = .ok 8001413 ∧
    (evaluateHand kingFlushHand).map HandEvaluation.rank = .ok 6 ∧
    (evaluateHand kingFlushHand).map HandEvaluation.value = .ok 1315070502 ∧
    8001413 < 1315070502 ∧
    headToHead quadAcesHand kingFlushHand = .ok [0] := by
  refine ⟨rfl, rfl, rfl, rfl, by omega, rfl⟩

/-- C2 (amended): the engine decides a head-to-head by comparing `rank`
first and `value` only between equal ranks — the winner is the evaluation
that is lexicographically greater in `(rank, value)`; the `value` field
alone is not monotonic across rank categories. -/
theorem C2_rank_then_value_decides (i j : Nat) (e f : HandEvaluation)
    (h : f.rank < e.rank ∨ (f.rank = e.rank ∧ f.value < e.value)) :
    selectByRankThenValue [(i, e), (j, f)] = [i] := by
  rcases h with hlt | ⟨heq, hvlt⟩
  · simp [selectByRankThenValue, Nat.zero_max, Nat.max_eq_left hlt.le, Nat.ne_of_lt hlt]
  · simp [selectByRankThenValue, Nat.zero_max, heq, Nat.max_self,
      Nat.max_eq_left hvlt.le, Nat.ne_of_lt hvlt]

/-- Witness for the amended C2 at concrete evaluations: rank 8 beats rank 6
even though the rank-6 evaluation carries the larger value, and between two
rank-5 evaluations the larger value wins. -/
theorem C2_rank_then_value_decides_witness :
    selectByRankThenValue
      [(0, { rank := 8, value := 5, description := "q", cards := [] }),
       (1, { rank := 6, value := 900, description := "f", cards := [] })] = [0] ∧
    selectByRankThenValue
      [(4, { rank := 5, value := 14, description := "s", cards := [] }),
       (7, { rank := 5, value := 6, description := "s", cards := [] })] = [4] :=
  ⟨C2_rank_then_value_decides 0 1 _ _ (Or.inl (by decide)),
   C2_rank_then_value_decides 4 7 _ _ (Or.inr ⟨rfl, by decide⟩)⟩

/-- C3: the wheel `{A♦,2♣,3♥,4♠,5♦}` is detected as a Straight (rank 5, not
High Card) as the claim states; but the code scores it with the Ace high —
`value = 5000000 + 14`, above the 6-high straight's `5000006` — so in a
head-to-head the engine awards the wheel the pot: the code contradicts the
claimed (and spec-intended) strictly-below ordering. -/
theorem C3_wheel_straight_but_overvalued :
    (evaluateHand wheelHand).map HandEvaluation.rank = .ok HandRank.Straight ∧
    (evaluateHand wheelHand).map HandEvaluation.value = .ok 5000014 ∧
    (evaluateHand sixHighStraightHand).map HandEvaluation.rank = .ok HandRank.Straight ∧
    (evaluateHand sixHighStraightHand).map HandEvaluation.value = .ok 5000006 ∧
    5000006 < 5000014 ∧
    headToHead wheelHand sixHighStraightHand = .ok [0] := by
  refine ⟨rfl, rfl, rfl, rfl, by omega, rfl⟩

/-- C6: at a settlement with all-in contributions 50 and 100 and two live
stacks of 200, the code's side pots are `200 / 150 / 200` — they do sum to
the 550 chips contributed — but the final main pot, formed exclusively from
contributions above the 100 level, lists seat 0 (all-in for only 50) and
seat 1 (all-in for 100) as eligible, contradicting the claimed eligibility
threshold. -/
theorem C6_main_pot_includes_short_all_in :
    ((calculateSidePots sidePotState).sidePots.map
        (fun sp => (sp.amount, sp.eligiblePlayers))) =
      [((200 : Int), [0, 1, 2, 3]), (150, [1, 2, 3]), (200, [0, 1, 2, 3])] ∧
    (getPlayer sidePotState 0).totalBetInRound = 50 ∧
    (getPlayer sidePotState 0).isAllIn = true ∧
    ((200 : Int) + 150 + 200 = 50 + 100 + 200 + 200) := by
  refine ⟨rfl, rfl, rfl, by omega⟩

/-- Counterexample to C8 as stated: in the heads-up pre-flop state it is seat
0's turn (`currentPlayerIndex = 0`), yet a bet submitted for seat 1 is *not*
absorbed — the pot grows from 30 to 130 and seat 1's stack shrinks from 990
to 890: no action method consults `currentPlayerIndex`. -/
theorem C8_out_of_turn_bet_mutates_counterexample :
    headsUpPreFlop.currentPlayerIndex = 0 ∧
    headsUpPreFlop.pot = 30 ∧
    (bet headsUpPreFlop 1 100 false).pot = 130 ∧
    (getPlayer headsUpPreFlop 1).chips = 990 ∧
    (getPlayer (bet headsUpPreFlop 1 100 false) 1).chips = 890 ∧
    bet headsUpPreFlop 1 100 false ≠ headsUpPreFlop := by
  refine ⟨rfl, rfl, rfl, rfl, rfl, ?_⟩
  intro hcontra
  have : (bet headsUpPreFlop 1 100 false).pot = headsUpPreFlop.pot := by rw [hcontra]
  simp only [show (bet headsUpPreFlop 1 100 false).pot = 130 from rfl,
    show headsUpPreFlop.pot = 30 from rfl] at this
  omega

end Poker

namespace Poker

/-- C8 (amended): an action is silently absorbed — no state change, no error —
when its own guard fails: whenever the acting player is folded or all-in, or
the stage is Showdown, all five action methods leave the `GameState`
untouched (as they also do on the further per-method guards: empty stack for
`bet`/`check`/`call`/`allIn`, non-positive amount for `bet`, unmatched bet
for `check`).  The seat being different from `currentPlayerIndex` is *not*
among the guards: out-of-turn actions by otherwise-eligible players are
applied, so serialization is the caller's duty. -/
theorem C8_guarded_actions_absorbed (st : GameState) (pid : Nat) (amount : Int)
    (skipPost : Bool)
    (h : (getPlayer st pid).isFolded = true ∨ (getPlayer st pid).isAllIn = true ∨
      st.stage = GameStage.Showdown) :
    bet st pid amount skipPost = st ∧ check st pid = st ∧ call st pid = st ∧
    fold st pid = st ∧ allIn st pid = st := by
  rcases h with h | h | h <;>
    simp [bet, check, call, fold, allIn, h]

/-- Witness for the amended C8: with seat 0 folded every action for seat 0 is
a no-op. -/
theorem C8_guarded_actions_absorbed_witness :
    bet sampleStateFolded 0 50 false = sampleStateFolded ∧
    check sampleStateFolded 0 = sampleStateFolded ∧
    call sampleStateFolded 0 = sampleStateFolded ∧
    fold sampleStateFolded 0 = sampleStateFolded ∧
    allIn sampleStateFolded 0 = sampleStateFolded :=
  C8_guarded_actions_absorbed sampleStateFolded 0 50 false (Or.inl rfl)

end Poker

namespace Poker

/-- C10: `startNewHandWithPackedDeck` throws exactly when the decoded input
holds fewer than 52 bytes; with 52 or more bytes it decodes only the first
52 (trailing bytes are ignored) via `suit = byte mod 4` (in the order
Hearts, Diamonds, Clubs, Spades) and `rank = byte div 4 + 2`, and starts the
hand with that deck order. -/
theorem C10_packed_deck_decoding (st : GameState) (bytes extra : List Nat) :
    (bytes.length < 52 →
      startNewHandWithPackedDeck st bytes = .error "Packed deck must contain 52 bytes") ∧
    (52 ≤ bytes.length →
      startNewHandWithPackedDeck st bytes =
        .ok (startNewHandInternal st (some (decodePackedDeck bytes)) [])) ∧
    (bytes.length = 52 →
      startNewHandWithPackedDeck st (bytes ++ extra) = startNewHandWithPackedDeck st bytes) ∧
    (∀ k, k < 52 → k < bytes.length →
      (decodePackedDeck bytes).getD k { rank := 0, suit := Suit.Hearts } =
        { rank := bytes.getD k 0 / 4 + 2,
          suit := suitValues.getD (bytes.getD k 0 % 4) Suit.Hearts }) := by
  refine ⟨?_, ?_, ?_, ?_⟩
  · intro h
    simp [startNewHandWithPackedDeck, h]
  · intro h
    simp [startNewHandWithPackedDeck, Nat.not_lt.mpr h]
  · intro h
    have hdeck : decodePackedDeck (bytes ++ extra) = decodePackedDeck bytes := by
      unfold decodePackedDeck
      rw [List.take_append_eq_append_take, h]
      simp
    simp [startNewHandWithPackedDeck, hdeck, h]
  · intro k hk52 hklen
    have hlt : k < (decodePackedDeck bytes).length := by
      simp [decodePackedDeck]
      omega
    rw [List.getD_eq_getElem _ _ hlt]
    simp [decodePackedDeck, decodeCardByte, List.getElem?_eq_getElem hklen]

/-- Witness for C10: a 3-byte deck throws, the 52-byte deck 0..51 starts a
hand, appending a trailing byte changes nothing, and byte 5 decodes to the
3 of Diamonds (5 div 4 + 2 = 3, 5 mod 4 = 1). -/
theorem C10_packed_deck_decoding_witness :
    startNewHandWithPackedDeck sampleState [1, 2, 3] =
      .error "Packed deck must contain 52 bytes" ∧
    startNewHandWithPackedDeck sampleState (List.range 52) =
      .ok (startNewHandInternal sampleState (some (decodePackedDeck (List.range 52))) []) ∧
    startNewHandWithPackedDeck sampleState (List.range 52 ++ [7]) =
      startNewHandWithPackedDeck sampleState (List.range 52) ∧
    (decodePackedDeck (List.range 52)).getD 5 { rank := 0, suit := Suit.Hearts } =
      { rank := (List.range 52).getD 5 0 / 4 + 2,
        suit := suitValues.getD ((List.range 52).getD 5 0 % 4) Suit.Hearts } :=
  ⟨(C10_packed_deck_decoding sampleState [1, 2, 3] []).1 (by decide),
   (C10_packed_deck_decoding sampleState (List.range 52) []).2.1 (by decide),
   (C10_packed_deck_decoding sampleState (List.range 52) [7]).2.2.1 (by decide),
   (C10_packed_deck_decoding sampleState (List.range 52) []).2.2.2 5 (by decide) (by decide)⟩

end Poker

namespace Poker

theorem chipsEq_refl (a : GameState) : ChipsEq a a := ⟨rfl, rfl⟩

theorem chipsEq_trans {a b c : GameState} (h1 : ChipsEq a b) (h2 : ChipsEq b c) :
    ChipsEq a c :=
  ⟨h1.1.trans h2.1, h1.2.trans h2.2⟩

theorem chipsPlusPot_of_chipsEq {a b : GameState} (h : ChipsEq a b) :
    chipsPlusPot a = chipsPlusPot b := by
  unfold chipsPlusPot
  rw [show a.players.map (fun p => p.chips) = chipsMap a from rfl,
    show b.players.map (fun p => p.chips) = chipsMap b from rfl, h.1, h.2]

theorem nonNegChips_of_chipsMap_eq {a b : GameState} (h : chipsMap a = chipsMap b)
    (hb : NonNegChips b) : NonNegChips a := by
  intro p hp
  have hmem : p.chips ∈ chipsMap a := List.mem_map_of_mem _ hp
  rw [h] at hmem
  obtain ⟨q, hq, he⟩ := List.mem_map.mp hmem
  exact he ▸ hb q hq

theorem chips_addLog (st : GameState) (e : String) : ChipsEq (addLog st e) st :=
  ⟨rfl, rfl⟩

theorem chips_advanceFrom (st : GameState) (i : Nat) : ChipsEq (advanceFrom st i) st := by
  unfold advanceFrom
  cases scanEligible st.players i st.players.length 1 <;> exact ⟨rfl, rfl⟩

theorem chips_resetRoundBets (st : GameState) : ChipsEq (resetRoundBets st) st := by
  refine ⟨?_, rfl⟩
  simp [resetRoundBets, chipsMap]

theorem chips_nextStage (st : GameState) : ChipsEq (nextStage st) st := by
  cases hs : st.stage <;>
    simp [nextStage, hs, resetRoundBets, dealCommunity, burn, addLog, chipsMap, ChipsEq]

theorem stageFuel_nextStage_lt (st : GameState) (h : ¬ st.stage = GameStage.Showdown) :
    stageFuel (nextStage st).stage < stageFuel st.stage := by
  cases hs : st.stage <;>
    simp [nextStage, hs, resetRoundBets, dealCommunity, burn, addLog, stageFuel] at *

theorem chips_runOut (st : GameState) : ChipsEq (runOut st) st := by
  have key : ∀ n (st : GameState), stageFuel st.stage ≤ n → ChipsEq (runOut st) st := by
    intro n
    induction n with
    | zero =>
      intro st hle
      have hs : st.stage = GameStage.Showdown := by
        cases hs : st.stage <;> simp [hs, stageFuel] at hle ⊢
      rw [runOut]
      simp [hs, chipsEq_refl]
    | succ m ih =>
      intro st hle
      rw [runOut]
      by_cases hs : st.stage = GameStage.Showdown
      · simp [hs, chipsEq_refl]
      · have hlt := stageFuel_nextStage_lt st hs
        simp only [hs, if_false, ite_false]
        exact chipsEq_trans (ih (nextStage st) (by omega)) (chips_nextStage st)
  exact key (stageFuel st.stage) st (le_refl _)

theorem chips_postActionHandler (st : GameState) (i : Nat) :
    ChipsEq (postActionHandler st i) st := by
  have h0 : ChipsEq ({ st with bettingActions := st.bettingActions + 1 } : GameState) st :=
    ⟨rfl, rfl⟩
  unfold postActionHandler
  dsimp only
  split
  · exact h0
  · split
    · split
      · split
        · exact chipsEq_trans (chips_runOut _)
            (chipsEq_trans (chips_nextStage _) (chipsEq_trans (chips_advanceFrom _ _) h0))
        · exact chipsEq_trans (chips_advanceFrom _ _)
            (chipsEq_trans (chips_nextStage _) (chipsEq_trans (chips_advanceFrom _ _) h0))
      · exact chipsEq_trans (chips_nextStage _) (chipsEq_trans (chips_advanceFrom _ _) h0)
    · exact chipsEq_trans (chips_advanceFrom _ _) h0

theorem chips_check (st : GameState) (pid : Nat) : ChipsEq (check st pid) st := by
  unfold check
  dsimp only
  split
  · exact chipsEq_refl st
  · split
    · exact chipsEq_refl st
    · exact chipsEq_trans (chips_postActionHandler _ _) (chips_addLog _ _)

theorem sum_map_chips_set (l : List Player) (i : Nat) (q : Player) (h : i < l.length) :
    ((l.set i q).map (fun p => p.chips)).sum =
      (l.map (fun p => p.chips)).sum + q.chips - (l.getD i dummyPlayer).chips := by
  induction l generalizing i with
  | nil => simp at h
  | cons a as ih =>
    cases i with
    | zero => simp [List.set]; ring
    | succ n =>
      have hn : n < as.length := by simpa using h
      simp only [List.set, List.map_cons, List.sum_cons, List.getD_cons_succ, ih n hn]
      ring

theorem chipsMap_set_same (l : List Player) (i : Nat) (q : Player)
    (h : q.chips = (l.getD i dummyPlayer).chips) :
    (l.set i q).map (fun p => p.chips) = l.map (fun p => p.chips) := by
  induction l generalizing i with
  | nil => simp
  | cons a as ih =>
    cases i with
    | zero =>
      simp only [List.getD_cons_zero] at h
      simp [List.set, h]
    | succ n =>
      simp only [List.getD_cons_succ] at h
      simp [List.set, ih n h]

theorem inRange_of_guard {st : GameState} {pid : Nat}
    (h : ¬ (getPlayer st pid).chips ≤ 0) : pid < st.players.length := by
  by_contra hge
  have : getPlayer st pid = dummyPlayer :=
    List.getD_eq_default _ _ (Nat.le_of_not_lt hge)
  rw [this] at h
  exact h (le_refl 0)

theorem getPlayer_mem {st : GameState} {pid : Nat} (h : pid < st.players.length) :
    getPlayer st pid ∈ st.players := by
  unfold getPlayer
  rw [List.getD_eq_getElem _ _ h]
  exact List.getElem_mem h

/-- Moving `w` chips from seat `pid`'s stack into the pot conserves the total:
stated for any state `x` whose players are the updated roster and whose pot
grew by the wager, so it applies to every betting branch regardless of the
other bookkeeping fields. -/
theorem chipsPlusPot_wagerUpdate {x : GameState} (st : GameState) (pid : Nat)
    (q : Player) (w : Int)
    (hpl : x.players = (setPlayer st pid q).players) (hpot : x.pot = st.pot + w)
    (hpid : pid < st.players.length)
    (hq : q.chips = (getPlayer st pid).chips - w) :
    chipsPlusPot x = chipsPlusPot st := by
  unfold chipsPlusPot
  rw [hpl, hpot]
  dsimp only [setPlayer]
  rw [sum_map_chips_set st.players pid _ hpid, hq]
  rw [show st.players.getD pid dummyPlayer = getPlayer st pid from rfl]
  ring

/-- A wager capped at the player's stack keeps every stack non-negative. -/
theorem nonNeg_wagerUpdate {x : GameState} (st : GameState) (pid : Nat)
    (q : Player) (w : Int)
    (hpl : x.players = (setPlayer st pid q).players)
    (hpid : pid < st.players.length)
    (hq : q.chips = (getPlayer st pid).chips - w)
    (hw : w ≤ (getPlayer st pid).chips)
    (hnn : NonNegChips st) :
    NonNegChips x := by
  intro p hp
  rw [hpl] at hp
  dsimp only [setPlayer] at hp
  rcases List.mem_or_eq_of_mem_set hp with hmem | rfl
  · exact hnn p hmem
  · have hpnn : 0 ≤ (getPlayer st pid).chips := hnn _ (getPlayer_mem hpid)
    omega

/-- The log-then-flow tail shared by every wagering action moves no chips. -/
theorem chipsEq_postAction_addLog (x : GameState) (m : String) (pid : Nat) :
    ChipsEq (postActionHandler (addLog x m) pid) x :=
  chipsEq_trans (chips_postActionHandler _ _) (chips_addLog _ _)

theorem chips_call (st : GameState) (pid : Nat) :
    chipsPlusPot (call st pid) = chipsPlusPot st ∧
    (NonNegChips st → NonNegChips (call st pid)) := by
  unfold call
  dsimp only
  split
  · exact ⟨rfl, fun h => h⟩
  · next hguard =>
    split
    · refine ⟨chipsPlusPot_of_chipsEq (chips_check st pid), fun h => ?_⟩
      exact nonNegChips_of_chipsMap_eq (chips_check st pid).1 h
    · next htc =>
      push_neg at hguard
      obtain ⟨-, -, -, hchips⟩ := hguard
      have hpid : pid < st.players.length := inRange_of_guard (not_le.mpr hchips)
      rw [chipsPlusPot_of_chipsEq (chipsEq_postAction_addLog _ _ _)]
      constructor
      · exact chipsPlusPot_wagerUpdate st pid _ _ rfl rfl hpid rfl
      · intro hnn
        refine nonNegChips_of_chipsMap_eq (chipsEq_postAction_addLog _ _ _).1 ?_
        exact nonNeg_wagerUpdate st pid _ _ rfl hpid rfl (min_le_right _ _) hnn

theorem chips_bet (st : GameState) (pid : Nat) (amount : Int) (skipPost : Bool) :
    chipsPlusPot (bet st pid amount skipPost) = chipsPlusPot st ∧
    (NonNegChips st → NonNegChips (bet st pid amount skipPost)) := by
  unfold bet
  dsimp only
  split
  · exact ⟨rfl, fun h => h⟩
  · next hguard =>
    push_neg at hguard
    obtain ⟨-, -, -, hchips, -⟩ := hguard
    have hpid : pid < st.players.length := inRange_of_guard (not_le.mpr hchips)
    constructor
    · by_cases hmin : amount < (if st.currentBet = 0 then st.bigBlind else st.lastRaiseAmount) ∧
        amount < (getPlayer st pid).chips
      · rw [if_pos hmin]
        exact (chips_call st pid).1
      · rw [if_neg hmin]
        by_cases hsp : skipPost = true
        · rw [if_pos hsp]
          split
          · exact chipsPlusPot_wagerUpdate st pid _ _ rfl rfl hpid rfl
          · exact chipsPlusPot_wagerUpdate st pid _ _ rfl rfl hpid rfl
        · rw [if_neg hsp]
          rw [chipsPlusPot_of_chipsEq (chipsEq_postAction_addLog _ _ _)]
          split
          · exact chipsPlusPot_wagerUpdate st pid _ _ rfl rfl hpid rfl
          · exact chipsPlusPot_wagerUpdate st pid _ _ rfl rfl hpid rfl
    · intro hnn
      by_cases hmin : amount < (if st.currentBet = 0 then st.bigBlind else st.lastRaiseAmount) ∧
        amount < (getPlayer st pid).chips
      · rw [if_pos hmin]
        exact (chips_call st pid).2 hnn
      · rw [if_neg hmin]
        by_cases hsp : skipPost = true
        · rw [if_pos hsp]
          split
          · exact nonNeg_wagerUpdate st pid _ _ rfl hpid rfl (min_le_right _ _) hnn
          · exact nonNeg_wagerUpdate st pid _ _ rfl hpid rfl (min_le_right _ _) hnn
        · rw [if_neg hsp]
          refine nonNegChips_of_chipsMap_eq (chipsEq_postAction_addLog _ _ _).1 ?_
          split
          · exact nonNeg_wagerUpdate st pid _ _ rfl hpid rfl (min_le_right _ _) hnn
          · exact nonNeg_wagerUpdate st pid _ _ rfl hpid rfl (min_le_right _ _) hnn

theorem chipsPlusPot_set_same (st : GameState) (pid : Nat) (q : Player)
    (h : q.chips = (getPlayer st pid).chips) :
    chipsPlusPot (setPlayer st pid q) = chipsPlusPot st ∧
    chipsMap (setPlayer st pid q) = chipsMap st := by
  have hmap : chipsMap (setPlayer st pid q) = chipsMap st :=
    chipsMap_set_same st.players pid q h
  refine ⟨?_, hmap⟩
  unfold chipsPlusPot
  rw [show (setPlayer st pid q).players.map (fun p => p.chips) =
      chipsMap (setPlayer st pid q) from rfl, hmap]
  rfl

theorem chips_allIn (st : GameState) (pid : Nat) :
    chipsPlusPot (allIn st pid) = chipsPlusPot st ∧
    (NonNegChips st → NonNegChips (allIn st pid)) := by
  unfold allIn
  dsimp only
  split
  · exact ⟨rfl, fun h => h⟩
  · have hb := chips_bet (addLog st ((getPlayer st pid).name ++ " goes all-in (" ++
      toString (getPlayer st pid).chips ++ ")")) pid (getPlayer st pid).chips false
    have hset := chipsPlusPot_set_same
      (bet (addLog st ((getPlayer st pid).name ++ " goes all-in (" ++
        toString (getPlayer st pid).chips ++ ")")) pid (getPlayer st pid).chips false)
      pid _ (rfl :
        ({ getPlayer (bet (addLog st ((getPlayer st pid).name ++ " goes all-in (" ++
          toString (getPlayer st pid).chips ++ ")")) pid (getPlayer st pid).chips false) pid
          with isAllIn := true } : Player).chips = _)
    constructor
    · rw [hset.1, hb.1]
      rfl
    · intro hnn
      refine nonNegChips_of_chipsMap_eq hset.2 ?_
      exact hb.2 (nonNegChips_of_chipsMap_eq (chips_addLog st _).1 hnn)

theorem chips_postBlind (st : GameState) (idx : Nat) (amount : Int)
    (hidx : idx < st.players.length) :
    chipsPlusPot (postBlind st idx amount) = chipsPlusPot st ∧
    (NonNegChips st → NonNegChips (postBlind st idx amount)) := by
  unfold postBlind
  dsimp only
  constructor
  · exact chipsPlusPot_wagerUpdate st idx _ _ rfl rfl hidx rfl
  · exact fun hnn => nonNeg_wagerUpdate st idx _ _ rfl hidx rfl (min_le_right _ _) hnn

/-- C9: every wagering operation — `bet`, `call`, `allIn`, and blind posting
during hand setup — conserves the total `(sum of all stacks) + pot`, and,
because the wager is always capped at the player's remaining chips, keeps
every stack non-negative.  (`postBlind` is stated for an in-range seat; the
engine only posts blinds at the computed blind positions.) -/
theorem C9_chip_conservation (st : GameState) (pid : Nat) (amount : Int)
    (skipPost : Bool) (idx : Nat) (blind : Int)
    (hidx : idx < st.players.length) :
    chipsPlusPot (bet st pid amount skipPost) = chipsPlusPot st ∧
    chipsPlusPot (call st pid) = chipsPlusPot st ∧
    chipsPlusPot (allIn st pid) = chipsPlusPot st ∧
    chipsPlusPot (postBlind st idx blind) = chipsPlusPot st ∧
    (NonNegChips st →
      NonNegChips (bet st pid amount skipPost) ∧ NonNegChips (call st pid) ∧
      NonNegChips (allIn st pid) ∧ NonNegChips (postBlind st idx blind)) :=
  ⟨(chips_bet st pid amount skipPost).1, (chips_call st pid).1, (chips_allIn st pid).1,
   (chips_postBlind st idx blind hidx).1,
   fun hnn => ⟨(chips_bet st pid amount skipPost).2 hnn, (chips_call st pid).2 hnn,
     (chips_allIn st pid).2 hnn, (chips_postBlind st idx blind hidx).2 hnn⟩⟩

/-- Witness for C9 on the concrete two-seat state: every wagering operation
conserves chips-plus-pot and keeps both stacks non-negative. -/
theorem C9_chip_conservation_witness :
    chipsPlusPot (bet sampleState 0 50 false) = chipsPlusPot sampleState ∧
    chipsPlusPot (call sampleState 0) = chipsPlusPot sampleState ∧
    chipsPlusPot (allIn sampleState 0) = chipsPlusPot sampleState ∧
    chipsPlusPot (postBlind sampleState 1 10) = chipsPlusPot sampleState ∧
    (NonNegChips (bet sampleState 0 50 false) ∧ NonNegChips (call sampleState 0) ∧
      NonNegChips (allIn sampleState 0) ∧ NonNegChips (postBlind sampleState 1 10)) :=
  have h := C9_chip_conservation sampleState 0 50 false 1 10 (by decide)
  have hnn : NonNegChips sampleState := by
    intro p hp
    fin_cases hp <;> decide
  ⟨h.1, h.2.1, h.2.2.1, h.2.2.2.1, h.2.2.2.2 hnn⟩

end Poker

namespace Poker

/-- Two iterations of the seat scan on a two-player roster, unfolded. -/
theorem scanActive_two_eval (a b : Player) (i o : Nat) :
    scanActive [a, b] i 2 o =
      (if 0 < ([a, b].getD ((i + o) % 2) dummyPlayer).chips ∧
          ([a, b].getD ((i + o) % 2) dummyPlayer).isActive
       then some ((i + o) % 2)
       else if 0 < ([a, b].getD ((i + o + 1) % 2) dummyPlayer).chips ∧
          ([a, b].getD ((i + o + 1) % 2) dummyPlayer).isActive
       then some ((i + o + 1) % 2)
       else none) := rfl

/-- C7: starting a new hand with exactly two active 1000-chip players and
blinds 10/20 rotates the dealer to the other seat and then establishes: the
dealer seat is the small blind with `currentBet = 10`, the other seat has
`currentBet = 20`, the pot is 30, and `currentPlayerIndex` is the dealer
seat (the dealer acts first pre-flop heads-up). -/
theorem C7_heads_up_blinds (st : GameState) (p0 p1 : Player)
    (dk : Option (List Card)) (fresh : List Card)
    (hps : st.players = [p0, p1])
    (h0c : p0.chips = 1000) (h0a : p0.isActive = true)
    (h1c : p1.chips = 1000) (h1a : p1.isActive = true)
    (hsb : st.smallBlind = 10) (hbb : st.bigBlind = 20) :
    (startNewHandInternal st dk fresh).dealerPosition = (st.dealerPosition + 1) % 2 ∧
    (startNewHandInternal st dk fresh).smallBlindPosition =
      (startNewHandInternal st dk fresh).dealerPosition ∧
    (getPlayer (startNewHandInternal st dk fresh)
      ((startNewHandInternal st dk fresh).dealerPosition)).currentBet = 10 ∧
    (getPlayer (startNewHandInternal st dk fresh)
      (((startNewHandInternal st dk fresh).dealerPosition + 1) % 2)).currentBet = 20 ∧
    (startNewHandInternal st dk fresh).pot = 30 ∧
    (startNewHandInternal st dk fresh).currentPlayerIndex =
      (startNewHandInternal st dk fresh).dealerPosition := by
  obtain ⟨id0, n0, c0, hc0, a0, f0, ai0, cb0, tb0, ia0⟩ := p0
  obtain ⟨id1, n1, c1, hc1, a1, f1, ai1, cb1, tb1, ia1⟩ := p1
  dsimp only at h0c h0a h1c h1a
  subst h0c h0a h1c h1a
  have hr : List.range 2 = [0, 1] := rfl
  rcases Nat.mod_two_eq_zero_or_one (st.dealerPosition + 1) with hd | hd <;>
    simp [startNewHandInternal, addLog, dealHoleCards, dealOneRound, postBlind,
      nextIdx, scanActive_two_eval, getPlayer, setPlayer, hps, hsb, hbb, hd, hr]

/-- Witness for C7 on the concrete two-seat 1000-chip state. -/
theorem C7_heads_up_blinds_witness :
    (startNewHandInternal sampleState none []).dealerPosition =
      (sampleState.dealerPosition + 1) % 2 ∧
    (startNewHandInternal sampleState none []).smallBlindPosition =
      (startNewHandInternal sampleState none []).dealerPosition ∧
    (getPlayer (startNewHandInternal sampleState none [])
      ((startNewHandInternal sampleState none []).dealerPosition)).currentBet = 10 ∧
    (getPlayer (startNewHandInternal sampleState none [])
      (((startNewHandInternal sampleState none []).dealerPosition + 1) % 2)).currentBet = 20 ∧
    (startNewHandInternal sampleState none []).pot = 30 ∧
    (startNewHandInternal sampleState none []).currentPlayerIndex =
      (startNewHandInternal sampleState none []).dealerPosition :=
  C7_heads_up_blinds sampleState (samplePlayer 0 1000 0 false) (samplePlayer 1 1000 0 false)
    none [] rfl rfl rfl rfl rfl rfl rfl

end Poker
